import Mathlib

/-!
Verification of the credential-pool / retry-orchestration core of the
App-RD repository (services/geminiService.ts and its variants).

The development shallowly embeds the `KeyManager` class — its two
credential tiers (`freeKeys`, `paidKeys`), the two rotation cursors
(`freeIndex`, `paidIndex`), `setPools`, `hasKeys`, `isUserToken` and the
`executeWithRetry` rotation loop — as pure Lean functions over an
explicit state record.  The asynchronous operation passed to
`executeWithRetry` is modelled as a function from the arguments the
source passes it (`key`, `isUltra`, `isPaidPool`) to `Except JSError T`:
a resolved promise is `Except.ok`, a rejected one is `Except.error`.
Within one invocation each credential is attempted at most once per
tier, so a deterministic function of the attempt's arguments captures
one invocation exactly.  `executeWithRetry` additionally returns the
trace of attempts it issued, in order; each trace record carries the
value the tier's rotation cursor had at the moment the operation was
invoked (the source assigns the cursor synchronously before awaiting
the call, so that value is the freshly advanced cursor).
-/

deriving instance DecidableEq for Except

namespace AppRD

/-- Character-list version of substring-at-the-front testing, used to model
the JavaScript `String.prototype.startsWith` and `includes` checks. -/
def listLeads : List Char → List Char → Bool
  | [], _ => true
  | _ :: _, [] => false
  | p :: ps, c :: cs => p == c && listLeads ps cs

/-- Model of JavaScript `s.startsWith(pat)`. -/
def strStartsWith (s pat : String) : Bool :=
  listLeads pat.toList s.toList

/-- Character-list version of substring containment. -/
def listContains (l pat : List Char) : Bool :=
  match l with
  | [] => listLeads pat []
  | _ :: t => listLeads pat l || listContains t pat

/-- Model of JavaScript `s.includes(pat)`. -/
def strContains (s pat : String) : Bool :=
  listContains s.toList pat.toList

/-- Model of JavaScript `s.trim()`: whitespace stripped from both ends. -/
def jsTrim (s : String) : String :=
  ⟨((s.toList.dropWhile Char.isWhitespace).reverse.dropWhile Char.isWhitespace).reverse⟩

/-- A JavaScript error value as inspected by the rotation loop: the source
reads `error?.status`, `error?.code` and `error?.message`; fields that are
absent on the thrown object are `none`. -/
structure JSError where
  status : Option Nat := none
  code : Option Nat := none
  message : Option String := none
deriving Repr, DecidableEq

/-- The rate-limit classification from `executeWithRetry` (both tiers use the
same expression):
`error?.status === 429 || error?.code === 429 ||
 (error?.message && (error.message.includes('429') || error.message.includes('quota')))`.
The `error?.message &&` conjunct is JavaScript truthiness: an absent or empty
message short-circuits to not-rate-limited. -/
def isRateLimitError (e : JSError) : Bool :=
  e.status == some 429 || e.code == some 429 ||
    (match e.message with
     | some m => !(m == "") && (strContains m "429" || strContains m "quota")
     | none => false)

/-- KeyManager.isUserToken: `key && key.startsWith('ya29')`. -/
def isUserToken (key : String) : Bool :=
  !(key == "") && strStartsWith key "ya29"

/-- The mutable fields of the `KeyManager` class, with their initializers. -/
structure KeyManagerState where
  freeKeys : List String := []
  paidKeys : List String := []
  freeIndex : Nat := 0
  paidIndex : Nat := 0
deriving Repr, DecidableEq

/-- KeyManager.setPools (redesign/services/geminiService.ts): stores both
lists verbatim and resets both cursors to 0. -/
def setPools (_st : KeyManagerState) (free paid : List String) : KeyManagerState :=
  { freeKeys := free, paidKeys := paid, freeIndex := 0, paidIndex := 0 }

/-- KeyManager.hasKeys: `freeKeys.length > 0 || paidKeys.length > 0`. -/
def hasKeys (st : KeyManagerState) : Bool :=
  decide (st.freeKeys.length > 0) || decide (st.paidKeys.length > 0)

/-- Which credential collection an attempt drew from: a tier loop of
`executeWithRetry`, or the environment-variable fallback taken when both
tiers are empty. -/
inductive Tier where
  | free
  | paid
  | env
deriving Repr, DecidableEq

/-- One attempt issued by `executeWithRetry`: the tier it drew from, the
selected index `currentKeyIndex`, the key and the two flags passed to the
operation, and the value the tier's rotation cursor had at the moment the
operation was invoked (the source assigns
`this.freeIndex = (currentKeyIndex + 1) % length` — resp. `paidIndex` —
synchronously before awaiting the operation). -/
structure AttemptRec where
  tier : Tier
  idx : Nat
  key : String
  isUltra : Bool
  isPaidPool : Bool
  cursorAtCall : Nat
deriving Repr, DecidableEq

/-- The operation argument of `executeWithRetry`:
`(key, isUltra, isPaidPool) => Promise<T>`, with promise resolution
modelled by `Except`. -/
def Op (T : Type) : Type := String → Bool → Bool → Except JSError T

/-- The attempt record built at loop iteration `j` of a tier loop:
`currentKeyIndex = (initialIdx + j) % keys.length`,
`key = keys[currentKeyIndex]`, and the cursor is advanced to
`(currentKeyIndex + 1) % keys.length` before the call.  The JavaScript
indexing is total here because the index is reduced modulo the length;
`getD` with an irrelevant default expresses the same lookup. -/
def mkAttempt (keys : List String) (tier : Tier) (isPaid : Bool)
    (initialIdx j : Nat) : AttemptRec :=
  let idx := (initialIdx + j) % keys.length
  let key := keys.getD idx ""
  { tier := tier, idx := idx, key := key, isUltra := isUserToken key,
    isPaidPool := isPaid, cursorAtCall := (idx + 1) % keys.length }

/-- Outcome of one tier loop of `executeWithRetry`: the operation succeeded,
every attempted credential failed rate-limited (the loop fell through), or a
non-rate-limited failure aborted the loop.  Each outcome carries the final
value of the tier's rotation cursor and the list of attempts made. -/
inductive TierOutcome (T : Type) where
  | success (v : T) (cursor : Nat) (trace : List AttemptRec)
  | exhausted (cursor : Nat) (trace : List AttemptRec)
  | fatal (e : JSError) (cursor : Nat) (trace : List AttemptRec)
deriving Repr

def TierOutcome.trace : TierOutcome T → List AttemptRec
  | .success _ _ tr => tr
  | .exhausted _ tr => tr
  | .fatal _ _ tr => tr

def TierOutcome.cursor : TierOutcome T → Nat
  | .success _ c _ => c
  | .exhausted c _ => c
  | .fatal _ c _ => c

/-- Record one more attempt (made before the rest of the loop ran) at the
front of an outcome's trace. -/
def TierOutcome.prepend (a : AttemptRec) : TierOutcome T → TierOutcome T
  | .success v c tr => .success v c (a :: tr)
  | .exhausted c tr => .exhausted c (a :: tr)
  | .fatal e c tr => .fatal e c (a :: tr)

/-- One tier loop of `executeWithRetry`
(`for (let i = 0; i < keys.length; i++) ...`), written with the number of
remaining iterations `rem` as the structural recursion argument: the source
loop runs at most `keys.length` iterations, and `runTier` below enters with
`i = 0`, `rem = keys.length`, so `i + rem = keys.length` throughout.
`cursor` is the current value of the tier's rotation cursor (it is
reassigned to `(idx + 1) % length` before each call and is returned
untouched if the loop body never runs). -/
def runTierAux (op : Op T) (keys : List String) (tier : Tier) (isPaid : Bool)
    (initialIdx : Nat) : Nat → Nat → Nat → TierOutcome T
  | _, cursor, 0 => .exhausted cursor []
  | i, _, rem + 1 =>
    let a := mkAttempt keys tier isPaid initialIdx i
    match op a.key a.isUltra a.isPaidPool with
    | .ok v => .success v a.cursorAtCall [a]
    | .error e =>
      if isRateLimitError e then
        (runTierAux op keys tier isPaid initialIdx (i + 1) a.cursorAtCall rem).prepend a
      else .fatal e a.cursorAtCall [a]

/-- A full tier loop, starting at the tier's current cursor. -/
def runTier (op : Op T) (keys : List String) (tier : Tier) (isPaid : Bool)
    (startIdx : Nat) : TierOutcome T :=
  runTierAux op keys tier isPaid startIdx 0 startIdx keys.length

/-- The `new Error("No API Keys configured. Please add keys.")` thrown when
neither a pool credential nor an environment fallback exists. -/
def notConfiguredError : JSError :=
  { message := some "No API Keys configured. Please add keys." }

/-- The aggregate error thrown after both tiers are exhausted:
`new Error("All API Keys (Free & Paid) are currently rate limited. Please wait.")`. -/
def allExhaustedError : JSError :=
  { message := some "All API Keys (Free & Paid) are currently rate limited. Please wait." }

/-- The single attempt made on the environment fallback credential
(`return operation(envKey, this.isUserToken(envKey), false)`); it has no
tier index and advances no cursor. -/
def envAttempt (k : String) : AttemptRec :=
  { tier := Tier.env, idx := 0, key := k, isUltra := isUserToken k,
    isPaidPool := false, cursorAtCall := 0 }

/-- The observable result of one `executeWithRetry` invocation: the value
returned or error thrown, the `KeyManager` state afterwards, and the
ordered list of attempts the invocation issued. -/
structure ExecResult (T : Type) where
  result : Except JSError T
  state : KeyManagerState
  trace : List AttemptRec
deriving Repr, DecidableEq

/-- KeyManager.executeWithRetry.  `envKey` is the value of `getEnvKey()`
(`process.env.API_KEY || process.env.GEMINI_API_KEY`); the `if (!envKey)`
truthiness test makes an empty string equivalent to an absent variable.
The source writes `if (!this.hasKeys())` with the fallback first; here the
branches appear in the other order with the condition un-negated. -/
def executeWithRetry (op : Op T) (envKey : Option String)
    (st : KeyManagerState) : ExecResult T :=
  if hasKeys st then
    match runTier op st.freeKeys Tier.free false st.freeIndex with
    | .success v c tr => ⟨.ok v, { st with freeIndex := c }, tr⟩
    | .fatal e c tr => ⟨.error e, { st with freeIndex := c }, tr⟩
    | .exhausted c tr =>
      match runTier op st.paidKeys Tier.paid true st.paidIndex with
      | .success v c2 tr2 => ⟨.ok v, { st with freeIndex := c, paidIndex := c2 }, tr ++ tr2⟩
      | .fatal e c2 tr2 => ⟨.error e, { st with freeIndex := c, paidIndex := c2 }, tr ++ tr2⟩
      | .exhausted c2 tr2 =>
        ⟨.error allExhaustedError, { st with freeIndex := c, paidIndex := c2 }, tr ++ tr2⟩
  else
    match envKey with
    | none => ⟨.error notConfiguredError, st, []⟩
    | some k =>
      if k == "" then ⟨.error notConfiguredError, st, []⟩
      else ⟨op k (isUserToken k) false, st, [envAttempt k]⟩

/-- The spec's error-classification rule stated from its own words: a failure
is rate-limited iff it carries a recognized rate-limit signal — HTTP status
429, an error code 429, or a message containing one of the quota/rate-limit
indicators the code recognises (the substrings "429" and "quota"). -/
def specRateLimitSignal (e : JSError) : Bool :=
  e.status == some 429 || e.code == some 429 ||
    (match e.message with
     | some m => strContains m "429" || strContains m "quota"
     | none => false)

/-- The pacing sleep of cleanupProductImage in
"redesign (3)/services/geminiService.ts" (also used verbatim by
analyzeProductDesign and remixProductImage there):
`if (!isUltra) await sleep(isPaidPool ? 500 : 1000)`, in milliseconds. -/
def cleanupPacingDelayMs (isUltra isPaidPool : Bool) : Nat :=
  if isUltra then 0 else if isPaidPool then 500 else 1000

/-- The per-call pacing sleep of standardSequentialGeneration in
"redesign (3)/services/geminiService.ts":
`if (!isUltra) await sleep(isPaidPool ? 2500 : 2000)`, in milliseconds. -/
def standardSequentialPacingDelayMs (isUltra isPaidPool : Bool) : Nat :=
  if isUltra then 0 else if isPaidPool then 2500 else 2000

/-- One batch of three `runFlashGen` sub-calls issued together through
`Promise.all` in the ultra path of generateProductRedesigns.  A sub-call
that finds no image part resolves to `null` (`none`); the three results
come back in issue order.  Sub-call outcomes are indexed by their position
among the six calls of the whole bulk generation. -/
def runFlashGenBatch (sub : Nat → Option String) (start : Nat) : List (Option String) :=
  [sub start, sub (start + 1), sub (start + 2)]

/-- The ultra path of generateProductRedesigns: two batches of three
sub-calls (with a 500 ms pause between the batches, irrelevant to the
results), null results filtered out:
`[...results1, ...results2].filter(r => r !== null)`. -/
def ultraBatchResults (sub : Nat → Option String) : List String :=
  (runFlashGenBatch sub 0 ++ runFlashGenBatch sub 3).filterMap id

/-- standardSequentialGeneration: `for (i = 0; i < 6; i++)`, each slot's
value being `keyManager.executeWithRetry(...).catch(e => null)` — the catch
collapses every rejection to `null` — and `if (img) results.push(img)`.
Each slot outcome is abstracted as the `Option String` the slot yields. -/
def standardSequentialGeneration (sub : Nat → Option String) : List String :=
  (List.range 6).filterMap sub

/-- The guard choosing the ultra path:
`keyManager['paidKeys'].some(k => k.startsWith('ya29'))`. -/
def hasUltraPaidKey (st : KeyManagerState) : Bool :=
  st.paidKeys.any (fun k => strStartsWith k "ya29")

/-- generateProductRedesigns of "redesign (3)/services/geminiService.ts",
abstracted over the outcome of its provider sub-calls: when a privileged
(ya29) credential is in the paid pool, the batched ultra path runs first;
`ultraOutcome` is what that path's `executeWithRetry` call produces — a
list of images (`Except.ok`, normally `ultraBatchResults` of the sub-call
outcomes) or a rejection.  The source then does
`.then(res => res.length > 0 ? res : throw).catch(e => standardSequentialGeneration(...))`:
an empty or failed ultra result falls back to the fully sequential path. -/
def generateProductRedesigns (st : KeyManagerState)
    (ultraOutcome : Except JSError (List String))
    (seqSub : Nat → Option String) : List String :=
  if hasUltraPaidKey st then
    match ultraOutcome with
    | .ok res => if res.length > 0 then res else standardSequentialGeneration seqSub
    | .error _ => standardSequentialGeneration seqSub
  else standardSequentialGeneration seqSub

/-- A parsed JSON value, as produced by the JavaScript builtin `JSON.parse`
that extractAccessToken (src/unnamed/part_002) applies to brace-shaped
credentials.  The source only ever asks whether a member's value is a
string, but parse success must follow the full JSON grammar, so every
value form is represented; a number keeps its raw lexeme (its numeric
value is never inspected). -/
inductive JsonValue where
  | null
  | bool (b : Bool)
  | num (raw : String)
  | str (s : String)
  | arr (elems : List JsonValue)
  | obj (members : List (String × JsonValue))
deriving Repr

/-- JSON insignificant whitespace (RFC 8259, as in JSON.parse): space,
tab, line feed, carriage return. -/
def jsonWsChar (c : Char) : Bool :=
  c == ' ' || c == '\t' || c == '\n' || c == '\r'

def skipWs : List Char → List Char
  | [] => []
  | c :: cs => if jsonWsChar c then skipWs cs else c :: cs

/-- Value of a hexadecimal digit (0-9, a-f, A-F). -/
def hexVal (c : Char) : Option Nat :=
  if 48 ≤ c.toNat && c.toNat ≤ 57 then some (c.toNat - 48)
  else if 97 ≤ c.toNat && c.toNat ≤ 102 then some (c.toNat - 87)
  else if 65 ≤ c.toNat && c.toNat ≤ 70 then some (c.toNat - 55)
  else none

def isDigitChar (c : Char) : Bool :=
  48 ≤ c.toNat && c.toNat ≤ 57

/-- Body of a JSON string after its opening quote: the decoded characters
and the input after the closing quote.  Raw control characters below
U+0020 are rejected; the escapes are exactly those of the JSON grammar.
A pair of \u escapes forming a surrogate pair is combined into one scalar
value; a lone surrogate — representable in a JavaScript string but not as
a Lean `Char` — decodes to U+FFFD, the one divergence from JSON.parse,
and one no theorem below depends on. -/
def parseStringBody : List Char → Option (List Char × List Char)
  | [] => none
  | '\"' :: rest => some ([], rest)
  | '\\' :: rest =>
    match rest with
    | 'u' :: h1 :: h2 :: h3 :: h4 :: rest2 =>
      match hexVal h1, hexVal h2, hexVal h3, hexVal h4 with
      | some a, some b, some c, some d =>
        let code := ((a * 16 + b) * 16 + c) * 16 + d
        if 0xD800 ≤ code && code ≤ 0xDBFF then
          match rest2 with
          | '\\' :: 'u' :: g1 :: g2 :: g3 :: g4 :: rest3 =>
            match hexVal g1, hexVal g2, hexVal g3, hexVal g4 with
            | some a2, some b2, some c2, some d2 =>
              let code2 := ((a2 * 16 + b2) * 16 + c2) * 16 + d2
              if 0xDC00 ≤ code2 && code2 ≤ 0xDFFF then
                (parseStringBody rest3).map fun p =>
                  (Char.ofNat (0x10000 + (code - 0xD800) * 0x400 + (code2 - 0xDC00)) :: p.1, p.2)
              else
                (parseStringBody ('\\' :: 'u' :: g1 :: g2 :: g3 :: g4 :: rest3)).map fun p =>
                  ('�' :: p.1, p.2)
            | _, _, _, _ =>
              (parseStringBody ('\\' :: 'u' :: g1 :: g2 :: g3 :: g4 :: rest3)).map fun p =>
                ('�' :: p.1, p.2)
          | other => (parseStringBody other).map fun p => ('�' :: p.1, p.2)
        else if 0xDC00 ≤ code && code ≤ 0xDFFF then
          (parseStringBody rest2).map fun p => ('�' :: p.1, p.2)
        else
          (parseStringBody rest2).map fun p => (Char.ofNat code :: p.1, p.2)
      | _, _, _, _ => none
    | e :: rest2 =>
      let esc : Option Char :=
        if e == '\"' then some '\"'
        else if e == '\\' then some '\\'
        else if e == '/' then some '/'
        else if e == 'b' then some (Char.ofNat 8)
        else if e == 'f' then some (Char.ofNat 12)
        else if e == 'n' then some '\n'
        else if e == 'r' then some '\r'
        else if e == 't' then some '\t'
        else none
      match esc with
      | some c => (parseStringBody rest2).map fun p => (c :: p.1, p.2)
      | none => none
    | [] => none
  | c :: rest =>
    if c.toNat < 0x20 then none
    else (parseStringBody rest).map fun p => (c :: p.1, p.2)

def takeDigits : List Char → List Char × List Char
  | [] => ([], [])
  | c :: cs =>
    if isDigitChar c then
      let p := takeDigits cs
      (c :: p.1, p.2)
    else ([], c :: cs)

/-- A JSON number per the grammar
-?(0|[1-9][0-9]*)(.[0-9]+)?([eE][+-]?[0-9]+)?, returned as its raw
lexeme together with the rest of the input. -/
def parseNumber (l : List Char) : Option (String × List Char) :=
  let signAnd : List Char × List Char :=
    match l with
    | '-' :: rest => (['-'], rest)
    | _ => ([], l)
  let intPart : Option (List Char × List Char) :=
    match signAnd.2 with
    | '0' :: rest => some (['0'], rest)
    | c :: rest =>
      if isDigitChar c then
        let p := takeDigits rest
        some (c :: p.1, p.2)
      else none
    | [] => none
  match intPart with
  | none => none
  | some (ip, l2) =>
    let fracPart : Option (List Char × List Char) :=
      match l2 with
      | '.' :: rest =>
        let p := takeDigits rest
        if p.1.isEmpty then none else some ('.' :: p.1, p.2)
      | _ => some ([], l2)
    match fracPart with
    | none => none
    | some (fp, l3) =>
      let expPart : Option (List Char × List Char) :=
        match l3 with
        | e :: rest =>
          if e == 'e' || e == 'E' then
            let signedRest : List Char × List Char :=
              match rest with
              | '+' :: r2 => (['+'], r2)
              | '-' :: r2 => (['-'], r2)
              | _ => ([], rest)
            let p := takeDigits signedRest.2
            if p.1.isEmpty then none else some (e :: (signedRest.1 ++ p.1), p.2)
          else some ([], l3)
        | [] => some ([], l3)
      match expPart with
      | none => none
      | some (ep, l4) => some (⟨signAnd.1 ++ ip ++ fp ++ ep⟩, l4)

mutual

/-- One JSON value, leading whitespace skipped; `fuel` bounds the nesting
recursion (see `jsonParse` for why it never runs out on valid input). -/
def parseValueF : Nat → List Char → Option (JsonValue × List Char)
  | 0, _ => none
  | fuel + 1, l =>
    match skipWs l with
    | '\x7b' :: rest =>
      match skipWs rest with
      | '\x7d' :: rest2 => some (JsonValue.obj [], rest2)
      | _ =>
        match parseMembersF fuel rest with
        | some (ms, rest2) => some (JsonValue.obj ms, rest2)
        | none => none
    | '[' :: rest =>
      match skipWs rest with
      | ']' :: rest2 => some (JsonValue.arr [], rest2)
      | _ =>
        match parseElementsF fuel rest with
        | some (es, rest2) => some (JsonValue.arr es, rest2)
        | none => none
    | '\"' :: rest =>
      match parseStringBody rest with
      | some (cs, rest2) => some (JsonValue.str ⟨cs⟩, rest2)
      | none => none
    | 't' :: 'r' :: 'u' :: 'e' :: rest => some (JsonValue.bool true, rest)
    | 'f' :: 'a' :: 'l' :: 's' :: 'e' :: rest => some (JsonValue.bool false, rest)
    | 'n' :: 'u' :: 'l' :: 'l' :: rest => some (JsonValue.null, rest)
    | l2 =>
      match parseNumber l2 with
      | some (raw, rest) => some (JsonValue.num raw, rest)
      | none => none

/-- The members of a non-empty object, after its opening brace:
`"name" : value` pairs separated by commas, up to the closing brace. -/
def parseMembersF : Nat → List Char → Option (List (String × JsonValue) × List Char)
  | 0, _ => none
  | fuel + 1, l =>
    match skipWs l with
    | '\"' :: rest =>
      match parseStringBody rest with
      | some (nameChars, rest2) =>
        match skipWs rest2 with
        | ':' :: rest3 =>
          match parseValueF fuel rest3 with
          | some (v, rest4) =>
            match skipWs rest4 with
            | ',' :: rest5 =>
              match parseMembersF fuel rest5 with
              | some (ms, rest6) => some ((⟨nameChars⟩, v) :: ms, rest6)
              | none => none
            | '\x7d' :: rest5 => some ([(⟨nameChars⟩, v)], rest5)
            | _ => none
          | none => none
        | _ => none
      | none => none
    | _ => none

/-- The elements of a non-empty array, after its opening bracket. -/
def parseElementsF : Nat → List Char → Option (List JsonValue × List Char)
  | 0, _ => none
  | fuel + 1, l =>
    match parseValueF fuel l with
    | some (v, rest) =>
      match skipWs rest with
      | ',' :: rest2 =>
        match parseElementsF fuel rest2 with
        | some (es, rest3) => some (v :: es, rest3)
        | none => none
      | ']' :: rest2 => some ([v], rest2)
      | _ => none
    | none => none

end

/-- The JavaScript builtin `JSON.parse` as extractAccessToken uses it:
one JSON text, surrounding insignificant whitespace allowed, any trailing
content a syntax error.  The fuel `2 * length + 1` bounds nesting depth:
along any chain of nested parses at least one character has been consumed
for every two fuel decrements (an opening brace or bracket per descent,
a name and colon per member, a comma per further element), so a valid
input never exhausts it, and an invalid input fails with any fuel. -/
def jsonParse (s : String) : Option JsonValue :=
  match parseValueF (2 * s.length + 1) s.toList with
  | some (v, rest) => if (skipWs rest).isEmpty then some v else none
  | none => none

/-- Property lookup on a parsed JSON object, with JavaScript object
semantics for duplicate keys: a later member overwrites an earlier one,
so the last occurrence wins. -/
def jsObjLookup (members : List (String × JsonValue)) (name : String) : Option JsonValue :=
  match members with
  | [] => none
  | (k, v) :: rest =>
    match jsObjLookup rest name with
    | some v2 => some v2
    | none => if k == name then some v else none

/-- The JSON branch of extractAccessToken (src/unnamed/part_002 lines
12-21): `JSON.parse` the brace-shaped credential; if the parsed object
carries a string `access_token` member return it, else a string `token`
member; otherwise — including on a parse error, caught by the source's
try/catch — warn and fall through, and both remaining returns of the
source yield the trimmed string. -/
def jsonUltraTokenBranch (trimmed : String) : String :=
  match jsonParse trimmed with
  | some (JsonValue.obj members) =>
    match jsObjLookup members "access_token" with
    | some (JsonValue.str s) => s
    | _ =>
      match jsObjLookup members "token" with
      | some (JsonValue.str s) => s
      | _ => trimmed
  | _ => trimmed

/-- extractAccessToken of src/unnamed/part_002: falsy input gives "",
otherwise the input is trimmed; a trimmed string starting with a brace
goes through the JSON ultra-token branch; a direct ya29 token and any
other string are both returned trimmed (the source's last two returns). -/
def extractAccessToken (raw : String) : String :=
  if raw == "" then ""
  else
    let trimmed := jsTrim raw
    if strStartsWith trimmed "\x7b" then jsonUltraTokenBranch trimmed
    else trimmed

/-- setPools of src/unnamed/part_002:
`this.freeKeys = free.map(extractAccessToken).filter(Boolean)` (same for
paid), then both cursors are reset to 0.  `filter(Boolean)` keeps only
truthy — non-empty — strings. -/
def part002SetPools (_st : KeyManagerState) (free paid : List String) : KeyManagerState :=
  { freeKeys := (free.map extractAccessToken).filter (fun s => !(s == "")),
    paidKeys := (paid.map extractAccessToken).filter (fun s => !(s == "")),
    freeIndex := 0,
    paidIndex := 0 }

/-- A call against the KeyManager surface the claims quantify over:
a settings update or one rotation-managed operation.  The operation's
result type is irrelevant to cursor dynamics; sequences fix it to String. -/
inductive KMCall where
  | set (free paid : List String)
  | exec (op : Op String) (envKey : Option String)

/-- Effect of one call on the KeyManager state. -/
def stepCall (st : KeyManagerState) : KMCall → KeyManagerState
  | .set free paid => setPools st free paid
  | .exec op envKey => (executeWithRetry op envKey st).state

/-- The state of the module-level `keyManager` instance at construction:
empty pools, both cursors 0 (the field initializers of the class). -/
def initialKeyManager : KeyManagerState := {}

/-- The KeyManager state after a sequence of calls against a fresh instance. -/
def runCalls (cs : List KMCall) : KeyManagerState :=
  cs.foldl stepCall initialKeyManager

/-- Cursor-bounds invariant: whenever a tier is non-empty its rotation
cursor is a valid index into it. -/
def cursorsInBounds (st : KeyManagerState) : Prop :=
  (st.freeKeys ≠ [] → st.freeIndex < st.freeKeys.length) ∧
  (st.paidKeys ≠ [] → st.paidIndex < st.paidKeys.length)

theorem TierOutcome.trace_prepend (a : AttemptRec) (o : TierOutcome T) :
    (o.prepend a).trace = a :: o.trace := by
  cases o <;> rfl

theorem TierOutcome.cursor_prepend (a : AttemptRec) (o : TierOutcome T) :
    (o.prepend a).cursor = o.cursor := by
  cases o <;> rfl

theorem mkAttempt_tier (keys : List String) (tier : Tier) (isPaid : Bool)
    (initialIdx j : Nat) : (mkAttempt keys tier isPaid initialIdx j).tier = tier := rfl

theorem mkAttempt_idx (keys : List String) (tier : Tier) (isPaid : Bool)
    (initialIdx j : Nat) :
    (mkAttempt keys tier isPaid initialIdx j).idx = (initialIdx + j) % keys.length := rfl

theorem mkAttempt_cursorAtCall (keys : List String) (tier : Tier) (isPaid : Bool)
    (initialIdx j : Nat) :
    (mkAttempt keys tier isPaid initialIdx j).cursorAtCall
      = ((mkAttempt keys tier isPaid initialIdx j).idx + 1) % keys.length := rfl

/-- Every record in a tier loop's trace is the attempt the loop builds at
some iteration. -/
theorem runTierAux_trace_shape (op : Op T) (keys : List String)
    (tier : Tier) (isPaid : Bool) (initialIdx : Nat) :
    ∀ (rem i cursor : Nat) (a : AttemptRec),
      a ∈ (runTierAux op keys tier isPaid initialIdx i cursor rem).trace →
      ∃ j, a = mkAttempt keys tier isPaid initialIdx j := by
  intro rem
  induction rem with
  | zero =>
    intro i cursor a ha
    simp [runTierAux, TierOutcome.trace] at ha
  | succ n ih =>
    intro i cursor a ha
    simp only [runTierAux] at ha
    split at ha
    · simp [TierOutcome.trace] at ha
      exact ⟨i, ha⟩
    · split at ha
      · rw [TierOutcome.trace_prepend] at ha
        rcases List.mem_cons.mp ha with rfl | hmem
        · exact ⟨i, rfl⟩
        · exact ih _ _ a hmem
      · simp [TierOutcome.trace] at ha
        exact ⟨i, ha⟩

/-- If the loop's trace records an attempt whose operation result is a
non-rate-limited error, the loop ended fatally at that attempt: the whole
outcome is `.fatal` with that very error and the attempt is the last
record of the trace. -/
theorem runTierAux_fatal_of_attempt (op : Op T) (keys : List String)
    (tier : Tier) (isPaid : Bool) (initialIdx : Nat) :
    ∀ (rem i cursor : Nat) (a : AttemptRec) (e : JSError),
      a ∈ (runTierAux op keys tier isPaid initialIdx i cursor rem).trace →
      op a.key a.isUltra a.isPaidPool = Except.error e →
      isRateLimitError e = false →
      ∃ c pre, runTierAux op keys tier isPaid initialIdx i cursor rem
        = .fatal e c (pre ++ [a]) := by
  intro rem
  induction rem with
  | zero =>
    intro i cursor a e ha _ _
    simp [runTierAux, TierOutcome.trace] at ha
  | succ n ih =>
    intro i cursor a e ha herr hrl
    simp only [runTierAux] at ha ⊢
    split at ha
    · rename_i v hop
      simp [TierOutcome.trace] at ha
      subst ha
      rw [herr] at hop
      exact absurd hop (by simp)
    · rename_i e0 hop
      split at ha
      · rename_i hrl0
        rw [TierOutcome.trace_prepend] at ha
        rcases List.mem_cons.mp ha with rfl | hmem
        · rw [herr] at hop
          cases hop
          rw [hrl] at hrl0
          cases hrl0
        · obtain ⟨c, pre, hrec⟩ := ih _ _ a e hmem herr hrl
          refine ⟨c, mkAttempt keys tier isPaid initialIdx i :: pre, ?_⟩
          rw [if_pos hrl0, hrec]
          rfl
      · rename_i hrl0
        simp [TierOutcome.trace] at ha
        subst ha
        rw [herr] at hop
        cases hop
        refine ⟨(mkAttempt keys tier isPaid initialIdx i).cursorAtCall, [], ?_⟩
        rw [if_neg hrl0]
        simp

/-- If every iteration of the loop fails rate-limited, the loop attempts
every remaining iteration in order and falls through exhausted. -/
theorem runTierAux_allRL (op : Op T) (keys : List String)
    (tier : Tier) (isPaid : Bool) (initialIdx : Nat)
    (hall : ∀ j, ∃ e,
      op (mkAttempt keys tier isPaid initialIdx j).key
         (mkAttempt keys tier isPaid initialIdx j).isUltra
         (mkAttempt keys tier isPaid initialIdx j).isPaidPool = Except.error e
      ∧ isRateLimitError e = true) :
    ∀ (rem i cursor : Nat), ∃ c,
      runTierAux op keys tier isPaid initialIdx i cursor rem
        = .exhausted c ((List.range' i rem).map (mkAttempt keys tier isPaid initialIdx)) := by
  intro rem
  induction rem with
  | zero =>
    intro i cursor
    exact ⟨cursor, rfl⟩
  | succ n ih =>
    intro i cursor
    obtain ⟨e, hop, hrl⟩ := hall i
    obtain ⟨c, hrec⟩ := ih (i + 1) (mkAttempt keys tier isPaid initialIdx i).cursorAtCall
    refine ⟨c, ?_⟩
    simp only [runTierAux, hop, hrl, if_true, hrec, List.range'_succ, List.map_cons]
    rfl

/-- A loop that made no attempt left the cursor untouched. -/
theorem runTierAux_cursor_of_nil (op : Op T) (keys : List String)
    (tier : Tier) (isPaid : Bool) (initialIdx : Nat) :
    ∀ (rem i cursor : Nat),
      (runTierAux op keys tier isPaid initialIdx i cursor rem).trace = [] →
      (runTierAux op keys tier isPaid initialIdx i cursor rem).cursor = cursor := by
  intro rem
  cases rem with
  | zero => intro i cursor _; rfl
  | succ n =>
    intro i cursor h
    simp only [runTierAux] at h ⊢
    split at h
    · simp [TierOutcome.trace] at h
    · split at h
      · rw [TierOutcome.trace_prepend] at h
        cases h
      · simp [TierOutcome.trace] at h

/-- The cursor a tier loop leaves behind is either its incoming value (no
attempt was made) or has been reduced modulo the pool size. -/
theorem runTierAux_cursor_bound (op : Op T) (keys : List String)
    (tier : Tier) (isPaid : Bool) (initialIdx : Nat) :
    ∀ (rem i cursor : Nat), i + rem = keys.length →
      (runTierAux op keys tier isPaid initialIdx i cursor rem).cursor = cursor
      ∨ (runTierAux op keys tier isPaid initialIdx i cursor rem).cursor < keys.length := by
  intro rem
  induction rem with
  | zero => intro i cursor _; exact Or.inl rfl
  | succ n ih =>
    intro i cursor hlen
    have hpos : 0 < keys.length := by omega
    have hmod : ∀ m : Nat, m % keys.length < keys.length := fun m => Nat.mod_lt _ hpos
    simp only [runTierAux]
    split
    · exact Or.inr (hmod _)
    · split
      · rw [TierOutcome.cursor_prepend]
        rcases ih (i + 1) (mkAttempt keys tier isPaid initialIdx i).cursorAtCall (by omega) with h | h
        · rw [h]
          exact Or.inr (hmod _)
        · exact Or.inr h
      · exact Or.inr (hmod _)

/-- A tier loop none of whose trace records carry its own tier made no
attempt at all, so its cursor is the incoming one. -/
theorem runTierAux_cursor_of_no_attempt (op : Op T) (keys : List String)
    (tier : Tier) (isPaid : Bool) (initialIdx rem i cursor : Nat)
    (h : ∀ a ∈ (runTierAux op keys tier isPaid initialIdx i cursor rem).trace,
      a.tier ≠ tier) :
    (runTierAux op keys tier isPaid initialIdx i cursor rem).cursor = cursor := by
  cases htr : (runTierAux op keys tier isPaid initialIdx i cursor rem).trace with
  | nil => exact runTierAux_cursor_of_nil op keys tier isPaid initialIdx rem i cursor htr
  | cons hd tl =>
    exfalso
    have hmem : hd ∈ (runTierAux op keys tier isPaid initialIdx i cursor rem).trace := by
      rw [htr]
      exact List.mem_cons_self _ _
    obtain ⟨j, rfl⟩ := runTierAux_trace_shape op keys tier isPaid initialIdx rem i cursor hd hmem
    exact h _ hmem (mkAttempt_tier keys tier isPaid initialIdx j)

/-- C3: every attempt `executeWithRetry` makes against a tier carries, as
the cursor value in force while the operation ran, exactly
`(currentKeyIndex + 1) % tierSize` — the cursor is assigned synchronously
before the asynchronous operation is awaited, so it has advanced past the
credential being tried whatever that attempt's outcome. -/
theorem cursor_advanced_before_call (op : Op T) (envKey : Option String)
    (st : KeyManagerState) (a : AttemptRec)
    (ha : a ∈ (executeWithRetry op envKey st).trace) :
    (a.tier = Tier.free → a.cursorAtCall = (a.idx + 1) % st.freeKeys.length)
    ∧ (a.tier = Tier.paid → a.cursorAtCall = (a.idx + 1) % st.paidKeys.length) := by
  unfold executeWithRetry at ha
  split at ha
  · split at ha
    · rename_i v c tr heq
      have hmem : a ∈ (runTierAux op st.freeKeys Tier.free false st.freeIndex
          0 st.freeIndex st.freeKeys.length).trace := by
        rw [show runTierAux op st.freeKeys Tier.free false st.freeIndex
            0 st.freeIndex st.freeKeys.length = TierOutcome.success v c tr from heq]
        exact ha
      obtain ⟨j, rfl⟩ := runTierAux_trace_shape op st.freeKeys Tier.free false st.freeIndex
        st.freeKeys.length 0 st.freeIndex a hmem
      exact ⟨fun _ => mkAttempt_cursorAtCall st.freeKeys Tier.free false st.freeIndex j,
        fun hp => absurd hp (by simp [mkAttempt_tier])⟩
    · rename_i e c tr heq
      have hmem : a ∈ (runTierAux op st.freeKeys Tier.free false st.freeIndex
          0 st.freeIndex st.freeKeys.length).trace := by
        rw [show runTierAux op st.freeKeys Tier.free false st.freeIndex
            0 st.freeIndex st.freeKeys.length = TierOutcome.fatal e c tr from heq]
        exact ha
      obtain ⟨j, rfl⟩ := runTierAux_trace_shape op st.freeKeys Tier.free false st.freeIndex
        st.freeKeys.length 0 st.freeIndex a hmem
      exact ⟨fun _ => mkAttempt_cursorAtCall st.freeKeys Tier.free false st.freeIndex j,
        fun hp => absurd hp (by simp [mkAttempt_tier])⟩
    · rename_i c tr heq
      split at ha <;> rename_i heq2 <;>
        (rcases List.mem_append.mp ha with hmemF | hmemP
         · have hmem : a ∈ (runTierAux op st.freeKeys Tier.free false st.freeIndex
               0 st.freeIndex st.freeKeys.length).trace := by
             rw [show runTierAux op st.freeKeys Tier.free false st.freeIndex
                 0 st.freeIndex st.freeKeys.length = TierOutcome.exhausted c tr from heq]
             exact hmemF
           obtain ⟨j, rfl⟩ := runTierAux_trace_shape op st.freeKeys Tier.free false st.freeIndex
             st.freeKeys.length 0 st.freeIndex a hmem
           exact ⟨fun _ => mkAttempt_cursorAtCall st.freeKeys Tier.free false st.freeIndex j,
             fun hp => absurd hp (by simp [mkAttempt_tier])⟩
         · have hmem : a ∈ (runTierAux op st.paidKeys Tier.paid true st.paidIndex
               0 st.paidIndex st.paidKeys.length).trace := by
             rw [show runTierAux op st.paidKeys Tier.paid true st.paidIndex
                 0 st.paidIndex st.paidKeys.length = _ from heq2]
             exact hmemP
           obtain ⟨j, rfl⟩ := runTierAux_trace_shape op st.paidKeys Tier.paid true st.paidIndex
             st.paidKeys.length 0 st.paidIndex a hmem
           exact ⟨fun hf => absurd hf (by simp [mkAttempt_tier]),
             fun _ => mkAttempt_cursorAtCall st.paidKeys Tier.paid true st.paidIndex j⟩)
  · split at ha
    · simp at ha
    · split at ha
      · simp at ha
      · have := List.mem_singleton.mp ha
        subst this
        exact ⟨fun hf => absurd hf (by simp [envAttempt]), fun hp => absurd hp (by simp [envAttempt])⟩

theorem cursor_advanced_before_call_witness :
    (⟨Tier.free, 0, "a", false, false, 0⟩ : AttemptRec)
      ∈ (executeWithRetry (fun _ _ _ => (Except.ok 1 : Except JSError Nat)) none
          ⟨["a"], [], 0, 0⟩).trace
    ∧ (0 : Nat) = (0 + 1) % 1 :=
  ⟨by decide,
   (cursor_advanced_before_call (fun _ _ _ => (Except.ok 1 : Except JSError Nat)) none
      ⟨["a"], [], 0, 0⟩ ⟨Tier.free, 0, "a", false, false, 0⟩ (by decide)).1 rfl⟩

/-- C4: with both tiers empty, `executeWithRetry` either makes exactly one
attempt on the configured environment fallback credential — propagating
whatever that single attempt produces, rate-limited or not, with no
rotation and no state change — or, when no (truthy) fallback exists, fails
with the NotConfigured error without invoking the operation at all. -/
theorem emptyPools_env_fallback (op : Op T) (envKey : Option String)
    (st : KeyManagerState) (hf : st.freeKeys = []) (hp : st.paidKeys = []) :
    (∀ k, envKey = some k → (k == "") = false →
       executeWithRetry op envKey st
         = ⟨op k (isUserToken k) false, st, [envAttempt k]⟩)
    ∧ (envKey = none ∨ envKey = some "" →
       executeWithRetry op envKey st = ⟨Except.error notConfiguredError, st, []⟩) := by
  have hk : hasKeys st = false := by simp [hasKeys, hf, hp]
  constructor
  · intro k hek hke
    subst hek
    simp [executeWithRetry, hk, hke]
  · rintro (rfl | rfl)
    · simp [executeWithRetry, hk]
    · simp [executeWithRetry, hk]

theorem emptyPools_env_fallback_witness :
    executeWithRetry (fun _ _ _ => (Except.ok 7 : Except JSError Nat)) (some "envkey")
        { } = ⟨Except.ok 7, { }, [envAttempt "envkey"]⟩
    ∧ executeWithRetry (fun _ _ _ => (Except.ok 7 : Except JSError Nat)) none
        { } = ⟨Except.error notConfiguredError, { }, []⟩ :=
  ⟨(emptyPools_env_fallback _ _ _ rfl rfl).1 "envkey" rfl (by decide),
   (emptyPools_env_fallback _ _ _ rfl rfl).2 (Or.inl rfl)⟩

/-- C5: with pools free = [k1, k2], paid = [] and both cursors at their
initial position 0, two rate-limited failures end the call with the
aggregate AllExhausted error; the free cursor has wrapped back to 0 and the
paid cursor is untouched (the returned state equals the starting state). -/
theorem scenarioA_allExhausted (op : Op T) (envKey : Option String)
    (k1 k2 : String) (e1 e2 : JSError)
    (h1 : op k1 (isUserToken k1) false = Except.error e1)
    (hr1 : isRateLimitError e1 = true)
    (h2 : op k2 (isUserToken k2) false = Except.error e2)
    (hr2 : isRateLimitError e2 = true) :
    executeWithRetry op envKey ⟨[k1, k2], [], 0, 0⟩
      = ⟨Except.error allExhaustedError, ⟨[k1, k2], [], 0, 0⟩,
         [⟨Tier.free, 0, k1, isUserToken k1, false, 1⟩,
          ⟨Tier.free, 1, k2, isUserToken k2, false, 0⟩]⟩ := by
  simp [executeWithRetry, hasKeys, runTier, runTierAux, mkAttempt, h1, h2, hr1, hr2,
    TierOutcome.prepend]

theorem scenarioA_allExhausted_witness :
    executeWithRetry
        (fun _ _ _ => (Except.error { status := some 429 } : Except JSError Nat)) none
        ⟨["a", "b"], [], 0, 0⟩
      = ⟨Except.error allExhaustedError, ⟨["a", "b"], [], 0, 0⟩,
         [⟨Tier.free, 0, "a", false, false, 1⟩, ⟨Tier.free, 1, "b", false, false, 0⟩]⟩ :=
  (scenarioA_allExhausted
      (fun _ _ _ => (Except.error { status := some 429 } : Except JSError Nat)) none
      "a" "b" _ _ rfl (by decide) rfl (by decide)).trans (by decide)

/-- C6 counterexample: in standardSequentialGeneration of
"redesign (3)/services/geminiService.ts" the pre-call delay for a
paid-tier standard credential is 2500 ms while the free-tier delay is
2000 ms, so the claimed "paid ≤ free" does not hold at that pacing site. -/
theorem pacing_paid_le_free_counterexample :
    standardSequentialPacingDelayMs false true = 2500
    ∧ standardSequentialPacingDelayMs false false = 2000
    ∧ ¬ standardSequentialPacingDelayMs false true
        ≤ standardSequentialPacingDelayMs false false := by
  decide

/-- C6 amended: a privileged (ultra) credential always gets a 0 ms delay;
the paid ≤ free ordering holds at the cleanupProductImage pacing site
(500 ms vs 1000 ms), but in standardSequentialGeneration the paid-tier
delay (2500 ms) exceeds the free-tier delay (2000 ms). -/
theorem pacing_policy_amended :
    (∀ p, cleanupPacingDelayMs true p = 0 ∧ standardSequentialPacingDelayMs true p = 0)
    ∧ cleanupPacingDelayMs false true = 500
    ∧ cleanupPacingDelayMs false false = 1000
    ∧ cleanupPacingDelayMs false true ≤ cleanupPacingDelayMs false false
    ∧ standardSequentialPacingDelayMs false true = 2500
    ∧ standardSequentialPacingDelayMs false false = 2000
    ∧ standardSequentialPacingDelayMs false false
        < standardSequentialPacingDelayMs false true := by
  decide

/-- C8 counterexample: setPools of src/unnamed/part_002 does transform its
arguments — each entry is normalized by extractAccessToken and falsy
(empty) results are dropped — so the stored tier is not always exactly the
given list: an empty credential disappears and a padded one is trimmed. -/
theorem setPools_exact_lists_counterexample :
    (part002SetPools { } [""] []).freeKeys ≠ [""]
    ∧ (part002SetPools { } [" k "] []).freeKeys = ["k"] := by
  decide

/-- C8 amended: setPools replaces both tiers and resets both cursors to 0,
and its result is independent of the previous state (so calling it twice
with the same arguments is idempotent, with no accumulation of stale
state).  The redesign variant stores the given lists verbatim; the
part_002 variant stores them normalized by extractAccessToken — trimming,
extraction of the access_token (or token) string field from a JSON-shaped
ultra token, fall-through for unparseable input — with empty results
dropped, as the three concrete normalization clauses illustrate. -/
theorem setPools_amended (st st' : KeyManagerState) (free paid : List String) :
    setPools st free paid = ⟨free, paid, 0, 0⟩
    ∧ setPools st free paid = setPools st' free paid
    ∧ part002SetPools st free paid = part002SetPools st' free paid
    ∧ (part002SetPools st free paid).freeKeys
        = (free.map extractAccessToken).filter (fun s => !(s == ""))
    ∧ (part002SetPools st free paid).paidKeys
        = (paid.map extractAccessToken).filter (fun s => !(s == ""))
    ∧ (part002SetPools st free paid).freeIndex = 0
    ∧ (part002SetPools st free paid).paidIndex = 0
    ∧ extractAccessToken "\x7b\"access_token\":\"ya29Xtok\"\x7d" = "ya29Xtok"
    ∧ extractAccessToken " \x7b \"token\": \"abc\" \x7d " = "abc"
    ∧ extractAccessToken "\x7bnot-json" = "\x7bnot-json" :=
  ⟨rfl, rfl, rfl, rfl, rfl, rfl, rfl, rfl, rfl, rfl⟩

/-- C10: `executeWithRetry` never modifies the credential lists — only the
cursors mutate — and an invocation none of whose attempts drew from the
paid tier (in particular one that succeeded on a free-tier credential)
leaves the paid-tier cursor unchanged. -/
theorem executeWithRetry_frame (op : Op T) (envKey : Option String)
    (st : KeyManagerState) (r : ExecResult T)
    (hrun : executeWithRetry op envKey st = r) :
    r.state.freeKeys = st.freeKeys ∧ r.state.paidKeys = st.paidKeys
    ∧ ((∀ a ∈ r.trace, a.tier ≠ Tier.paid) → r.state.paidIndex = st.paidIndex) := by
  subst hrun
  unfold executeWithRetry
  split
  · split
    · exact ⟨rfl, rfl, fun _ => rfl⟩
    · exact ⟨rfl, rfl, fun _ => rfl⟩
    · rename_i c tr heq
      split <;> rename_i c2 tr2 heq2 <;>
        (refine ⟨rfl, rfl, fun hno => ?_⟩
         have hno2 : ∀ a ∈ (runTierAux op st.paidKeys Tier.paid true st.paidIndex
             0 st.paidIndex st.paidKeys.length).trace, a.tier ≠ Tier.paid := by
           intro a hmem
           refine hno a (List.mem_append.mpr (Or.inr ?_))
           rw [show runTierAux op st.paidKeys Tier.paid true st.paidIndex
               0 st.paidIndex st.paidKeys.length = _ from heq2] at hmem
           exact hmem
         have hcur := runTierAux_cursor_of_no_attempt op st.paidKeys Tier.paid true
           st.paidIndex st.paidKeys.length 0 st.paidIndex hno2
         rw [show runTierAux op st.paidKeys Tier.paid true st.paidIndex
             0 st.paidIndex st.paidKeys.length = _ from heq2] at hcur
         exact hcur)
  · split
    · exact ⟨rfl, rfl, fun _ => rfl⟩
    · split
      · exact ⟨rfl, rfl, fun _ => rfl⟩
      · exact ⟨rfl, rfl, fun _ => rfl⟩

theorem executeWithRetry_frame_witness :
    (executeWithRetry (fun _ _ _ => (Except.ok 1 : Except JSError Nat)) none
        ⟨["a"], ["p"], 0, 0⟩).state.paidIndex = 0
    ∧ (executeWithRetry (fun _ _ _ => (Except.ok 1 : Except JSError Nat)) none
        ⟨["a"], ["p"], 0, 0⟩).state.freeKeys = ["a"] :=
  ⟨(executeWithRetry_frame (fun _ _ _ => (Except.ok 1 : Except JSError Nat)) none
      ⟨["a"], ["p"], 0, 0⟩ _ rfl).2.2 (by decide),
   (executeWithRetry_frame (fun _ _ _ => (Except.ok 1 : Except JSError Nat)) none
      ⟨["a"], ["p"], 0, 0⟩ _ rfl).1⟩

/-- C2: the rotation loop's classification agrees everywhere with the
spec's rule — a failure is rate-limited iff it carries status 429, code
429, or a message containing a "429"/"quota" indicator — and whenever an
attempt of an invocation fails with an error not so classified, that
attempt is the last one made (no further credential of any tier is tried)
and the invocation's result is that exact error object. -/
theorem classification_and_fatal_abort (op : Op T) (envKey : Option String)
    (st : KeyManagerState) (r : ExecResult T)
    (hrun : executeWithRetry op envKey st = r) :
    (∀ e, isRateLimitError e = specRateLimitSignal e)
    ∧ (∀ a ∈ r.trace, ∀ e, op a.key a.isUltra a.isPaidPool = Except.error e →
        isRateLimitError e = false →
        r.result = Except.error e ∧ ∃ pre, r.trace = pre ++ [a]) := by
  constructor
  · intro e
    rcases e with ⟨status, code, message⟩
    cases message with
    | none => rfl
    | some m =>
      by_cases hm : m = ""
      · subst hm
        have h429 : strContains "" "429" = false := by decide
        have hq : strContains "" "quota" = false := by decide
        simp [isRateLimitError, specRateLimitSignal, h429, hq]
      · have hm' : (m == "") = false := by simpa using hm
        simp [isRateLimitError, specRateLimitSignal, hm']
  · intro a ha e herr hrl
    unfold executeWithRetry at hrun
    split at hrun
    · split at hrun
      · rename_i v c tr heq
        subst hrun
        exfalso
        have hmem : a ∈ (runTierAux op st.freeKeys Tier.free false st.freeIndex
            0 st.freeIndex st.freeKeys.length).trace := by
          rw [show runTierAux op st.freeKeys Tier.free false st.freeIndex
              0 st.freeIndex st.freeKeys.length = _ from heq]
          exact ha
        obtain ⟨cf, pre, hfat⟩ := runTierAux_fatal_of_attempt op st.freeKeys Tier.free false
          st.freeIndex st.freeKeys.length 0 st.freeIndex a e hmem herr hrl
        rw [show runTierAux op st.freeKeys Tier.free false st.freeIndex
            0 st.freeIndex st.freeKeys.length = _ from heq] at hfat
        exact TierOutcome.noConfusion hfat
      · rename_i e0 c tr heq
        subst hrun
        have hmem : a ∈ (runTierAux op st.freeKeys Tier.free false st.freeIndex
            0 st.freeIndex st.freeKeys.length).trace := by
          rw [show runTierAux op st.freeKeys Tier.free false st.freeIndex
              0 st.freeIndex st.freeKeys.length = _ from heq]
          exact ha
        obtain ⟨cf, pre, hfat⟩ := runTierAux_fatal_of_attempt op st.freeKeys Tier.free false
          st.freeIndex st.freeKeys.length 0 st.freeIndex a e hmem herr hrl
        rw [show runTierAux op st.freeKeys Tier.free false st.freeIndex
            0 st.freeIndex st.freeKeys.length = _ from heq] at hfat
        obtain ⟨he, -, htr⟩ := TierOutcome.fatal.inj hfat
        subst he
        exact ⟨rfl, pre, htr⟩
      · rename_i c tr heq
        split at hrun <;> rename_i c2 tr2 heq2 <;> subst hrun
        · rename_i v
          exfalso
          rcases List.mem_append.mp ha with hmemF | hmemP
          · have hmem : a ∈ (runTierAux op st.freeKeys Tier.free false st.freeIndex
                0 st.freeIndex st.freeKeys.length).trace := by
              rw [show runTierAux op st.freeKeys Tier.free false st.freeIndex
                  0 st.freeIndex st.freeKeys.length = _ from heq]
              exact hmemF
            obtain ⟨cf, pre, hfat⟩ := runTierAux_fatal_of_attempt op st.freeKeys Tier.free false
              st.freeIndex st.freeKeys.length 0 st.freeIndex a e hmem herr hrl
            rw [show runTierAux op st.freeKeys Tier.free false st.freeIndex
                0 st.freeIndex st.freeKeys.length = _ from heq] at hfat
            exact TierOutcome.noConfusion hfat
          · have hmem : a ∈ (runTierAux op st.paidKeys Tier.paid true st.paidIndex
                0 st.paidIndex st.paidKeys.length).trace := by
              rw [show runTierAux op st.paidKeys Tier.paid true st.paidIndex
                  0 st.paidIndex st.paidKeys.length = _ from heq2]
              exact hmemP
            obtain ⟨cf, pre, hfat⟩ := runTierAux_fatal_of_attempt op st.paidKeys Tier.paid true
              st.paidIndex st.paidKeys.length 0 st.paidIndex a e hmem herr hrl
            rw [show runTierAux op st.paidKeys Tier.paid true st.paidIndex
                0 st.paidIndex st.paidKeys.length = _ from heq2] at hfat
            exact TierOutcome.noConfusion hfat
        · rename_i e2
          rcases List.mem_append.mp ha with hmemF | hmemP
          · exfalso
            have hmem : a ∈ (runTierAux op st.freeKeys Tier.free false st.freeIndex
                0 st.freeIndex st.freeKeys.length).trace := by
              rw [show runTierAux op st.freeKeys Tier.free false st.freeIndex
                  0 st.freeIndex st.freeKeys.length = _ from heq]
              exact hmemF
            obtain ⟨cf, pre, hfat⟩ := runTierAux_fatal_of_attempt op st.freeKeys Tier.free false
              st.freeIndex st.freeKeys.length 0 st.freeIndex a e hmem herr hrl
            rw [show runTierAux op st.freeKeys Tier.free false st.freeIndex
                0 st.freeIndex st.freeKeys.length = _ from heq] at hfat
            exact TierOutcome.noConfusion hfat
          · have hmem : a ∈ (runTierAux op st.paidKeys Tier.paid true st.paidIndex
                0 st.paidIndex st.paidKeys.length).trace := by
              rw [show runTierAux op st.paidKeys Tier.paid true st.paidIndex
                  0 st.paidIndex st.paidKeys.length = _ from heq2]
              exact hmemP
            obtain ⟨cf, pre, hfat⟩ := runTierAux_fatal_of_attempt op st.paidKeys Tier.paid true
              st.paidIndex st.paidKeys.length 0 st.paidIndex a e hmem herr hrl
            rw [show runTierAux op st.paidKeys Tier.paid true st.paidIndex
                0 st.paidIndex st.paidKeys.length = _ from heq2] at hfat
            obtain ⟨he, -, htr⟩ := TierOutcome.fatal.inj hfat
            subst he
            refine ⟨rfl, tr ++ pre, ?_⟩
            show tr ++ tr2 = tr ++ pre ++ [a]
            rw [htr, List.append_assoc]
        · exfalso
          rcases List.mem_append.mp ha with hmemF | hmemP
          · have hmem : a ∈ (runTierAux op st.freeKeys Tier.free false st.freeIndex
                0 st.freeIndex st.freeKeys.length).trace := by
              rw [show runTierAux op st.freeKeys Tier.free false st.freeIndex
                  0 st.freeIndex st.freeKeys.length = _ from heq]
              exact hmemF
            obtain ⟨cf, pre, hfat⟩ := runTierAux_fatal_of_attempt op st.freeKeys Tier.free false
              st.freeIndex st.freeKeys.length 0 st.freeIndex a e hmem herr hrl
            rw [show runTierAux op st.freeKeys Tier.free false st.freeIndex
                0 st.freeIndex st.freeKeys.length = _ from heq] at hfat
            exact TierOutcome.noConfusion hfat
          · have hmem : a ∈ (runTierAux op st.paidKeys Tier.paid true st.paidIndex
                0 st.paidIndex st.paidKeys.length).trace := by
              rw [show runTierAux op st.paidKeys Tier.paid true st.paidIndex
                  0 st.paidIndex st.paidKeys.length = _ from heq2]
              exact hmemP
            obtain ⟨cf, pre, hfat⟩ := runTierAux_fatal_of_attempt op st.paidKeys Tier.paid true
              st.paidIndex st.paidKeys.length 0 st.paidIndex a e hmem herr hrl
            rw [show runTierAux op st.paidKeys Tier.paid true st.paidIndex
                0 st.paidIndex st.paidKeys.length = _ from heq2] at hfat
            exact TierOutcome.noConfusion hfat
    · split at hrun
      · subst hrun
        simp at ha
      · split at hrun <;> subst hrun
        · simp at ha
        · have := List.mem_singleton.mp ha
          subst this
          exact ⟨herr, [], rfl⟩

/-- Round-robin selection starting anywhere visits each index of a
non-empty pool exactly once: the selected indices are pairwise distinct
and cover every valid index. -/
theorem roundRobin_idx_nodup (len f0 : Nat) (hlen : 0 < len) :
    ((List.range len).map fun j => (f0 + j) % len).Nodup
    ∧ ∀ m, m < len → m ∈ ((List.range len).map fun j => (f0 + j) % len) := by
  have hinj : ∀ x ∈ List.range len, ∀ y ∈ List.range len,
      (f0 + x) % len = (f0 + y) % len → x = y := by
    intro x hx y hy hxy
    have hx' := List.mem_range.mp hx
    have hy' := List.mem_range.mp hy
    have hmod : x % len = y % len := Nat.ModEq.add_left_cancel' f0 hxy
    rwa [Nat.mod_eq_of_lt hx', Nat.mod_eq_of_lt hy'] at hmod
  have hnd : ((List.range len).map fun j => (f0 + j) % len).Nodup :=
    (List.nodup_range len).map_on hinj
  refine ⟨hnd, ?_⟩
  intro m hm
  have hsub : ((List.range len).map fun j => (f0 + j) % len).toFinset ⊆ Finset.range len := by
    intro x hx
    rw [List.mem_toFinset] at hx
    obtain ⟨j, _, rfl⟩ := List.mem_map.mp hx
    exact Finset.mem_range.mpr (Nat.mod_lt _ hlen)
  have hcard : (Finset.range len).card
      ≤ (((List.range len).map fun j => (f0 + j) % len).toFinset).card := by
    rw [List.toFinset_card_of_nodup hnd, Finset.card_range, List.length_map, List.length_range]
  have heq := Finset.eq_of_subset_of_card_le hsub hcard
  have hmem : m ∈ ((List.range len).map fun j => (f0 + j) % len).toFinset := by
    rw [heq]
    exact Finset.mem_range.mpr hm
  exact List.mem_toFinset.mp hmem

/-- C1: when both tiers are populated and every free credential fails
rate-limited, the invocation's attempt trace starts with the whole free
tier — one attempt per loop iteration, in round-robin order from the
current free cursor, each free index selected exactly once (the selected
indices are distinct and cover the tier) — and only after it come
paid-tier attempts: no paid credential is tried while an untried free
credential remains. -/
theorem free_exhausted_before_paid (op : Op T) (envKey : Option String)
    (st : KeyManagerState) (hfree : st.freeKeys ≠ []) (_hpaid : st.paidKeys ≠ [])
    (hall : ∀ k ∈ st.freeKeys, ∃ e,
      op k (isUserToken k) false = Except.error e ∧ isRateLimitError e = true) :
    ∃ paidTrace,
      (executeWithRetry op envKey st).trace
        = (List.range st.freeKeys.length).map
            (mkAttempt st.freeKeys Tier.free false st.freeIndex) ++ paidTrace
      ∧ (∀ a ∈ paidTrace, a.tier = Tier.paid)
      ∧ ((List.range st.freeKeys.length).map
          fun j => (mkAttempt st.freeKeys Tier.free false st.freeIndex j).idx).Nodup
      ∧ (∀ m, m < st.freeKeys.length →
          m ∈ ((List.range st.freeKeys.length).map
            fun j => (mkAttempt st.freeKeys Tier.free false st.freeIndex j).idx)) := by
  have hlen : 0 < st.freeKeys.length := List.length_pos.mpr hfree
  have hall' : ∀ j, ∃ e,
      op (mkAttempt st.freeKeys Tier.free false st.freeIndex j).key
        (mkAttempt st.freeKeys Tier.free false st.freeIndex j).isUltra
        (mkAttempt st.freeKeys Tier.free false st.freeIndex j).isPaidPool = Except.error e
      ∧ isRateLimitError e = true := by
    intro j
    have hidx : (st.freeIndex + j) % st.freeKeys.length < st.freeKeys.length :=
      Nat.mod_lt _ hlen
    have hkey : (mkAttempt st.freeKeys Tier.free false st.freeIndex j).key ∈ st.freeKeys := by
      show st.freeKeys.getD ((st.freeIndex + j) % st.freeKeys.length) "" ∈ st.freeKeys
      rw [List.getD_eq_getElem st.freeKeys "" hidx]
      exact List.getElem_mem hidx
    exact hall _ hkey
  obtain ⟨c, heqF⟩ := runTierAux_allRL op st.freeKeys Tier.free false st.freeIndex hall'
    st.freeKeys.length 0 st.freeIndex
  rw [show List.range' 0 st.freeKeys.length = List.range st.freeKeys.length from
    (List.range_eq_range' _).symm] at heqF
  have heqF' : runTier op st.freeKeys Tier.free false st.freeIndex
      = TierOutcome.exhausted c ((List.range st.freeKeys.length).map
          (mkAttempt st.freeKeys Tier.free false st.freeIndex)) := heqF
  have hk : hasKeys st = true := by
    simp only [hasKeys, Bool.or_eq_true, decide_eq_true_eq]
    exact Or.inl hlen
  have hrr := roundRobin_idx_nodup st.freeKeys.length st.freeIndex hlen
  have hidxmap : ((List.range st.freeKeys.length).map
        fun j => (mkAttempt st.freeKeys Tier.free false st.freeIndex j).idx)
      = ((List.range st.freeKeys.length).map
        fun j => (st.freeIndex + j) % st.freeKeys.length) := by
    simp only [mkAttempt_idx]
  rcases hpq : runTier op st.paidKeys Tier.paid true st.paidIndex with
    ⟨v, c2, tr2⟩ | ⟨c2, tr2⟩ | ⟨e2, c2, tr2⟩ <;>
    (refine ⟨tr2, ?_, ?_, ?_, ?_⟩
     · show (executeWithRetry op envKey st).trace = _
       unfold executeWithRetry
       rw [hk]
       simp only [if_true, heqF', hpq]
     · intro a hmem
       have hmem' : a ∈ (runTierAux op st.paidKeys Tier.paid true st.paidIndex
           0 st.paidIndex st.paidKeys.length).trace := by
         rw [show runTierAux op st.paidKeys Tier.paid true st.paidIndex
             0 st.paidIndex st.paidKeys.length = _ from hpq]
         exact hmem
       obtain ⟨j, rfl⟩ := runTierAux_trace_shape op st.paidKeys Tier.paid true st.paidIndex
         st.paidKeys.length 0 st.paidIndex a hmem'
       exact mkAttempt_tier st.paidKeys Tier.paid true st.paidIndex j
     · rw [hidxmap]
       exact hrr.1
     · rw [hidxmap]
       exact hrr.2)

theorem free_exhausted_before_paid_witness :
    ∃ paidTrace,
      (executeWithRetry
          (fun k _ _ => if k == "p" then Except.ok 1
            else (Except.error { status := some 429 } : Except JSError Nat))
          none ⟨["a", "b"], ["p"], 0, 0⟩).trace
        = (List.range 2).map (mkAttempt ["a", "b"] Tier.free false 0) ++ paidTrace
      ∧ (∀ a ∈ paidTrace, a.tier = Tier.paid)
      ∧ ((List.range 2).map fun j => (mkAttempt ["a", "b"] Tier.free false 0 j).idx).Nodup
      ∧ (∀ m, m < 2 →
          m ∈ ((List.range 2).map fun j => (mkAttempt ["a", "b"] Tier.free false 0 j).idx)) :=
  free_exhausted_before_paid
    (fun k _ _ => if k == "p" then Except.ok 1
      else (Except.error { status := some 429 } : Except JSError Nat))
    none ⟨["a", "b"], ["p"], 0, 0⟩ (by decide) (by decide)
    (by
      intro k hk
      refine ⟨{ status := some 429 }, ?_, by decide⟩
      fin_cases hk <;> decide)

theorem classification_and_fatal_abort_witness :
    (executeWithRetry
        (fun _ _ _ => (Except.error ⟨some 400, none, some "Bad Request"⟩ : Except JSError Nat))
        none ⟨["a", "b"], ["p"], 0, 0⟩).result
      = Except.error ⟨some 400, none, some "Bad Request"⟩ :=
  ((classification_and_fatal_abort
      (fun _ _ _ => (Except.error ⟨some 400, none, some "Bad Request"⟩ : Except JSError Nat))
      none ⟨["a", "b"], ["p"], 0, 0⟩ _ rfl).2
    ⟨Tier.free, 0, "a", false, false, 1⟩ (by decide)
    ⟨some 400, none, some "Bad Request"⟩ rfl (by decide)).1

/-- One `executeWithRetry` invocation preserves the cursor-bounds
invariant: a cursor is either left untouched or assigned a value reduced
modulo the (unchanged) tier size. -/
theorem executeWithRetry_preserves_bounds (op : Op T) (envKey : Option String)
    (st : KeyManagerState) (h : cursorsInBounds st) :
    cursorsInBounds (executeWithRetry op envKey st).state := by
  have hfb := runTierAux_cursor_bound op st.freeKeys Tier.free false st.freeIndex
    st.freeKeys.length 0 st.freeIndex (by omega)
  have hpb := runTierAux_cursor_bound op st.paidKeys Tier.paid true st.paidIndex
    st.paidKeys.length 0 st.paidIndex (by omega)
  unfold executeWithRetry
  split
  · split
    · rename_i v c tr heq
      rw [show runTierAux op st.freeKeys Tier.free false st.freeIndex
          0 st.freeIndex st.freeKeys.length = _ from heq] at hfb
      refine ⟨fun hne => ?_, fun hne => h.2 hne⟩
      show c < st.freeKeys.length
      rcases hfb with hc | hc
      · have hc' : c = st.freeIndex := hc
        rw [hc']
        exact h.1 hne
      · exact hc
    · rename_i e c tr heq
      rw [show runTierAux op st.freeKeys Tier.free false st.freeIndex
          0 st.freeIndex st.freeKeys.length = _ from heq] at hfb
      refine ⟨fun hne => ?_, fun hne => h.2 hne⟩
      show c < st.freeKeys.length
      rcases hfb with hc | hc
      · have hc' : c = st.freeIndex := hc
        rw [hc']
        exact h.1 hne
      · exact hc
    · rename_i c tr heq
      rw [show runTierAux op st.freeKeys Tier.free false st.freeIndex
          0 st.freeIndex st.freeKeys.length = _ from heq] at hfb
      split <;> rename_i c2 tr2 heq2 <;>
        (rw [show runTierAux op st.paidKeys Tier.paid true st.paidIndex
             0 st.paidIndex st.paidKeys.length = _ from heq2] at hpb
         refine ⟨fun hne => ?_, fun hne => ?_⟩
         · show c < st.freeKeys.length
           rcases hfb with hc | hc
           · have hc' : c = st.freeIndex := hc
             rw [hc']
             exact h.1 hne
           · exact hc
         · show c2 < st.paidKeys.length
           rcases hpb with hc | hc
           · have hc' : c2 = st.paidIndex := hc
             rw [hc']
             exact h.2 hne
           · exact hc)
  · split
    · exact h
    · split
      · exact h
      · exact h

/-- C9: along every sequence of setPools and executeWithRetry calls
against a fresh KeyManager, whenever a tier is non-empty its rotation
cursor is a valid index into it (0 ≤ cursor < tier size): setPools resets
cursors to 0 and every loop assignment reduces modulo the current tier
size, so indexing a tier at its cursor never goes out of range. -/
theorem cursors_always_in_bounds (cs : List KMCall) : cursorsInBounds (runCalls cs) := by
  have hstep : ∀ (st : KeyManagerState) (c : KMCall),
      cursorsInBounds st → cursorsInBounds (stepCall st c) := by
    intro st c h
    cases c with
    | set free paid =>
      exact ⟨fun hne => List.length_pos.mpr hne, fun hne => List.length_pos.mpr hne⟩
    | exec op envKey => exact executeWithRetry_preserves_bounds op envKey st h
  have hfold : ∀ (l : List KMCall) (st : KeyManagerState),
      cursorsInBounds st → cursorsInBounds (l.foldl stepCall st) := by
    intro l
    induction l with
    | nil => exact fun st h => h
    | cons hd tl ih => exact fun st h => ih _ (hstep st hd h)
  exact hfold cs initialKeyManager ⟨fun h => absurd rfl h, fun h => absurd rfl h⟩

/-- C7: with a privileged credential in the paid pool the six redesigns are
produced by the batched ultra path — two sub-batches of three concurrent
sub-calls rather than six paced sequential calls — whose non-empty result
is returned as-is; a failed or empty batched result falls back to the
fully sequential path.  In either mode a sub-call that yields no image
contributes nothing while the others are preserved (the two modes keep
exactly the same non-null results, in order), and when exactly one of the
six sub-calls yields nothing the final result has exactly five images —
no exception reaches the caller, both paths return a plain list. -/
theorem batch_generation_policy (st : KeyManagerState)
    (ultraOutcome : Except JSError (List String))
    (seqSub bsub : Nat → Option String)
    (hultra : hasUltraPaidKey st = true) :
    (∀ res, ultraOutcome = Except.ok res → 0 < res.length →
      generateProductRedesigns st ultraOutcome seqSub = res)
    ∧ (∀ e, ultraOutcome = Except.error e →
      generateProductRedesigns st ultraOutcome seqSub = standardSequentialGeneration seqSub)
    ∧ (ultraOutcome = Except.ok [] →
      generateProductRedesigns st ultraOutcome seqSub = standardSequentialGeneration seqSub)
    ∧ ultraBatchResults bsub = standardSequentialGeneration bsub
    ∧ (∀ j, j < 6 → bsub j = none → (∀ i, i < 6 → i ≠ j → (bsub i).isSome = true) →
      (ultraBatchResults bsub).length = 5 ∧ (standardSequentialGeneration bsub).length = 5)
    ∧ (∀ i, i < 6 → ∀ s, bsub i = some s → s ∈ ultraBatchResults bsub) := by
  have hbs : ultraBatchResults bsub = standardSequentialGeneration bsub := rfl
  have hlen5 : ∀ j, j < 6 → bsub j = none →
      (∀ i, i < 6 → i ≠ j → (bsub i).isSome = true) →
      (ultraBatchResults bsub).length = 5 := by
    intro j hj hnone hsome
    interval_cases j
    · obtain ⟨s1, hs1⟩ := Option.isSome_iff_exists.mp (hsome 1 (by omega) (by omega))
      obtain ⟨s2, hs2⟩ := Option.isSome_iff_exists.mp (hsome 2 (by omega) (by omega))
      obtain ⟨s3, hs3⟩ := Option.isSome_iff_exists.mp (hsome 3 (by omega) (by omega))
      obtain ⟨s4, hs4⟩ := Option.isSome_iff_exists.mp (hsome 4 (by omega) (by omega))
      obtain ⟨s5, hs5⟩ := Option.isSome_iff_exists.mp (hsome 5 (by omega) (by omega))
      simp [ultraBatchResults, runFlashGenBatch, hnone, hs1, hs2, hs3, hs4, hs5,
        List.filterMap_cons]
    · obtain ⟨s0, hs0⟩ := Option.isSome_iff_exists.mp (hsome 0 (by omega) (by omega))
      obtain ⟨s2, hs2⟩ := Option.isSome_iff_exists.mp (hsome 2 (by omega) (by omega))
      obtain ⟨s3, hs3⟩ := Option.isSome_iff_exists.mp (hsome 3 (by omega) (by omega))
      obtain ⟨s4, hs4⟩ := Option.isSome_iff_exists.mp (hsome 4 (by omega) (by omega))
      obtain ⟨s5, hs5⟩ := Option.isSome_iff_exists.mp (hsome 5 (by omega) (by omega))
      simp [ultraBatchResults, runFlashGenBatch, hnone, hs0, hs2, hs3, hs4, hs5,
        List.filterMap_cons]
    · obtain ⟨s0, hs0⟩ := Option.isSome_iff_exists.mp (hsome 0 (by omega) (by omega))
      obtain ⟨s1, hs1⟩ := Option.isSome_iff_exists.mp (hsome 1 (by omega) (by omega))
      obtain ⟨s3, hs3⟩ := Option.isSome_iff_exists.mp (hsome 3 (by omega) (by omega))
      obtain ⟨s4, hs4⟩ := Option.isSome_iff_exists.mp (hsome 4 (by omega) (by omega))
      obtain ⟨s5, hs5⟩ := Option.isSome_iff_exists.mp (hsome 5 (by omega) (by omega))
      simp [ultraBatchResults, runFlashGenBatch, hnone, hs0, hs1, hs3, hs4, hs5,
        List.filterMap_cons]
    · obtain ⟨s0, hs0⟩ := Option.isSome_iff_exists.mp (hsome 0 (by omega) (by omega))
      obtain ⟨s1, hs1⟩ := Option.isSome_iff_exists.mp (hsome 1 (by omega) (by omega))
      obtain ⟨s2, hs2⟩ := Option.isSome_iff_exists.mp (hsome 2 (by omega) (by omega))
      obtain ⟨s4, hs4⟩ := Option.isSome_iff_exists.mp (hsome 4 (by omega) (by omega))
      obtain ⟨s5, hs5⟩ := Option.isSome_iff_exists.mp (hsome 5 (by omega) (by omega))
      simp [ultraBatchResults, runFlashGenBatch, hnone, hs0, hs1, hs2, hs4, hs5,
        List.filterMap_cons]
    · obtain ⟨s0, hs0⟩ := Option.isSome_iff_exists.mp (hsome 0 (by omega) (by omega))
      obtain ⟨s1, hs1⟩ := Option.isSome_iff_exists.mp (hsome 1 (by omega) (by omega))
      obtain ⟨s2, hs2⟩ := Option.isSome_iff_exists.mp (hsome 2 (by omega) (by omega))
      obtain ⟨s3, hs3⟩ := Option.isSome_iff_exists.mp (hsome 3 (by omega) (by omega))
      obtain ⟨s5, hs5⟩ := Option.isSome_iff_exists.mp (hsome 5 (by omega) (by omega))
      simp [ultraBatchResults, runFlashGenBatch, hnone, hs0, hs1, hs2, hs3, hs5,
        List.filterMap_cons]
    · obtain ⟨s0, hs0⟩ := Option.isSome_iff_exists.mp (hsome 0 (by omega) (by omega))
      obtain ⟨s1, hs1⟩ := Option.isSome_iff_exists.mp (hsome 1 (by omega) (by omega))
      obtain ⟨s2, hs2⟩ := Option.isSome_iff_exists.mp (hsome 2 (by omega) (by omega))
      obtain ⟨s3, hs3⟩ := Option.isSome_iff_exists.mp (hsome 3 (by omega) (by omega))
      obtain ⟨s4, hs4⟩ := Option.isSome_iff_exists.mp (hsome 4 (by omega) (by omega))
      simp [ultraBatchResults, runFlashGenBatch, hnone, hs0, hs1, hs2, hs3, hs4,
        List.filterMap_cons]
  refine ⟨?_, ?_, ?_, hbs, fun j hj hn hs => ⟨hlen5 j hj hn hs, hbs ▸ hlen5 j hj hn hs⟩, ?_⟩
  · intro res hres hlen
    subst hres
    simp [generateProductRedesigns, hultra, hlen]
  · intro e hres
    subst hres
    simp [generateProductRedesigns, hultra]
  · intro hres
    subst hres
    simp [generateProductRedesigns, hultra]
  · intro i hi s hs
    have hmem : some s ∈ runFlashGenBatch bsub 0 ++ runFlashGenBatch bsub 3 := by
      interval_cases i <;> simp [runFlashGenBatch, ← hs]
    exact List.mem_filterMap.mpr ⟨some s, hmem, rfl⟩

theorem batch_generation_policy_witness :
    generateProductRedesigns ⟨[], ["ya29tok"], 0, 0⟩ (Except.ok ["img1"]) (fun _ => none)
      = ["img1"]
    ∧ (ultraBatchResults (fun i => if i = 2 then none else some "img")).length = 5 :=
  ⟨(batch_generation_policy ⟨[], ["ya29tok"], 0, 0⟩ (Except.ok ["img1"]) (fun _ => none)
      (fun i => if i = 2 then none else some "img") (by decide)).1 ["img1"] rfl (by decide),
   ((batch_generation_policy ⟨[], ["ya29tok"], 0, 0⟩ (Except.ok ["img1"]) (fun _ => none)
      (fun i => if i = 2 then none else some "img") (by decide)).2.2.2.2.1 2 (by omega) (by decide)
      (by decide)).1⟩

end AppRD
